import Mathlib

/-!
Verification development for the beanstalkc client library (beanstalkc.py).
The Python source is shallowly embedded: pure helpers become Lean functions,
the regex-based parsers are embedded as executable character-list scanners
that mirror the matching semantics of the Python re module on the concrete
patterns used by the source, and the stateful connection / job objects become
explicit state-passing functions that also return the list of wire commands
sent, so that claims about "no server interaction" are statements about that
list being empty.
-/

namespace Beanstalkc

/-- Numeric constants from the top of beanstalkc.py.  Python floats are
modelled as rationals carrying the intended mathematical value. -/
def DEFAULT_PRIORITY : Nat := 2 ^ 31

/-- Python DEFAULT_TTR = 120. -/
def DEFAULT_TTR : Nat := 120

/-- Python DEFAULT_TIMEOUT = 0.05 (50 ms), modelled as the rational 1/20. -/
def DEFAULT_TIMEOUT : ℚ := 1 / 20

/-- Python DEFAULT_UPPER_BACKOFF_BOUND = 30. -/
def DEFAULT_UPPER_BACKOFF_BOUND : ℚ := 30

/-! ## Character classes used by the regular expressions in the source

Python re class \s on byte strings is exactly the six ASCII characters
space, tab, newline, carriage return, form feed and vertical tab. -/

/-- Membership in the Python regex class \s (ASCII). -/
def isSpace (c : Char) : Bool :=
  c = ' ' || c = '\t' || c = '\n' || c = '\r' || c = '\x0b' || c = '\x0c'

/-- Membership in the Python regex class \d on byte strings: ASCII digits. -/
def isDigit (c : Char) : Bool :=
  '0' ≤ c && c ≤ '9'

/-- Membership in the regex class [^:\s]: a key character of the dict
pattern in parse_yaml_dict. -/
def isKeyChar (c : Char) : Bool :=
  !(c = ':') && !(isSpace c)

/-! ## The dict pattern of parse_yaml_dict

The source iterates the matches of the multiline pattern
  caret \s* ([^:\s]+) \s* : \s* ([^\s]*) dollar
over the whole body (re.finditer with re.M).  With re.M the caret anchor
holds at the string start and right after every newline, and the dollar
anchor holds at the string end and right before any newline.  Because the
character classes are disjoint, matching at an anchor position is
deterministic maximal munch except for one backtracking point: when the
greedy whitespace-then-value run after the colon is not followed by a
newline or the end, the engine retries with the whitespace run cut at its
last newline, giving an empty value.  matchEntry implements exactly that. -/

/-- Advance to the next line start: drop up to and including the next
newline character (used both after a failed anchor position and after a
completed match, whose remainder starts at a newline when nonempty). -/
def nextLinePos (s : List Char) : List Char :=
  (s.dropWhile (fun c => !(c = '\n'))).drop 1

/-- Attempt the dict-entry pattern at an anchor position.  Returns the
captured (key, value) pair and the remaining suffix after the match end. -/
def matchEntry (s : List Char) : Option ((List Char × List Char) × List Char) :=
  let s1 := s.dropWhile isSpace
  let key := s1.takeWhile isKeyChar
  if key.isEmpty then none
  else
    match (s1.drop key.length).dropWhile isSpace with
    | [] => none
    | c0 :: s3 =>
      if c0 = ':' then
        let w := s3.takeWhile isSpace
        let s4 := s3.drop w.length
        let v := s4.takeWhile (fun c => !(isSpace c))
        let s5 := s4.drop v.length
        match s5 with
        | [] => some ((key, v), [])
        | c :: _ =>
          if c = '\n' then some ((key, v), s5)
          else if w.contains '\n' then
            some ((key, []),
              s3.drop (w.length - 1 - (w.reverse.takeWhile (fun c2 => !(c2 = '\n'))).length))
          else none
      else none

/-- Fuel-indexed scan of all matches of the dict pattern, visiting anchor
positions from left to right exactly as re.finditer does.  Each step moves
strictly past at least one character, so fuel (length + 1) is always
enough; the fuel only makes the recursion structural. -/
def findEntriesFuel : Nat → List Char → List (List Char × List Char)
  | 0, _ => []
  | _ + 1, [] => []
  | n + 1, s =>
    match matchEntry s with
    | some (kv, rest) => kv :: findEntriesFuel n (nextLinePos rest)
    | none => findEntriesFuel n (nextLinePos s)

/-- All (key, value) captures of the dict pattern over the input, in order. -/
def findEntries (s : List Char) : List (List Char × List Char) :=
  findEntriesFuel (s.length + 1) s

/-! ## The value-typing regexes of parse_yaml_dict -/

/-- Nonempty run [1-9][0-9]*: a nonzero digit followed by digits. -/
def posDigits : List Char → Bool
  | [] => false
  | c :: cs => ('1' ≤ c && c ≤ '9') && cs.all isDigit

/-- Body of the integer pattern (0|-?[1-9][0-9]*) anchored on both sides. -/
def intCore (s : List Char) : Bool :=
  s = ['0'] ||
    (match s with
     | [] => false
     | c :: cs => if c = '-' then posDigits cs else posDigits (c :: cs))

/-- Optional exponent part (e[-+]?[1-9][0-9]*)? followed by the end. -/
def expPart (r : List Char) : Bool :=
  match r with
  | [] => true
  | c :: cs =>
    if c = 'e' then
      match cs with
      | [] => false
      | c2 :: t => if c2 = '+' || c2 = '-' then posDigits t else posDigits (c2 :: t)
    else false

/-- Optional fraction part (\.\d+)? followed by the exponent part. -/
def fracThenExp (r : List Char) : Bool :=
  match r with
  | [] => expPart []
  | c :: cs =>
    if c = '.' then !(cs.takeWhile isDigit).isEmpty && expPart (cs.dropWhile isDigit)
    else expPart (c :: cs)

/-- Body of the float pattern -?\d+(\.\d+)?(e[-+]?[1-9][0-9]*)? anchored on
both sides. -/
def floatCore (s : List Char) : Bool :=
  let t := match s with
    | [] => ([] : List Char)
    | c :: cs => if c = '-' then cs else c :: cs
  !(t.takeWhile isDigit).isEmpty && fracThenExp (t.dropWhile isDigit)

/-- Python re.match of a pattern of the shape caret body dollar (no re.M):
the dollar anchor also accepts a single trailing newline. -/
def pyAnchored (core : List Char → Bool) (s : List Char) : Bool :=
  core s ||
    (match s.reverse with
     | [] => false
     | c :: t => if c = '\n' then core t.reverse else false)

/-! ## Numeric conversion int() and float() on matched tokens -/

/-- Value of a run of ASCII digits, most significant first. -/
def digitsVal (l : List Char) : Nat :=
  l.foldl (fun a c => a * 10 + (c.toNat - '0'.toNat)) 0

/-- Python int() on a token matched by the integer pattern. -/
def pyInt (v : List Char) : Int :=
  match v with
  | [] => 0
  | c :: t => if c = '-' then -(digitsVal t : Int) else (digitsVal (c :: t) : Int)

/-- Mathematical value of a token matched by the float pattern: the
digits before and after the dot form the mantissa, signed and scaled by
ten to the signed exponent (Python float() rounds this rational to the
nearest double; the claims only concern values that are exactly
representable).  The value is assembled with one mkRat so that it is
kernel-computable. -/
def pyFloatQ (v : List Char) : ℚ :=
  let sgn : Int := match v with
    | [] => 1
    | c :: _ => if c = '-' then -1 else 1
  let t := match v with
    | [] => ([] : List Char)
    | c :: cs => if c = '-' then cs else c :: cs
  let ip := t.takeWhile isDigit
  let r := t.drop ip.length
  let fd : List Char := match r with
    | [] => []
    | c :: cs => if c = '.' then cs.takeWhile isDigit else []
  let r2 : List Char := match r with
    | [] => r
    | c :: cs => if c = '.' then cs.drop (cs.takeWhile isDigit).length else r
  let e : Int := match r2 with
    | [] => 0
    | c :: cs =>
      if c = 'e' then
        match cs with
        | [] => (digitsVal cs : Int)
        | c2 :: t2 =>
          if c2 = '+' then (digitsVal t2 : Int)
          else if c2 = '-' then -(digitsVal t2 : Int)
          else (digitsVal (c2 :: t2) : Int)
      else 0
  let mant : Int := sgn * ((digitsVal ip : Int) * (10 : Int) ^ fd.length + (digitsVal fd : Int))
  mkRat (mant * (10 : Int) ^ e.toNat) (10 ^ (fd.length + (-e).toNat))

/-- A parsed statistics value: string, integer or float. -/
inductive YVal where
  | str : String → YVal
  | int : Int → YVal
  | float : ℚ → YVal
  deriving DecidableEq, Repr

/-- The value-typing chain of parse_yaml_dict applied to one captured
(key, value) pair. -/
def typedVal (key val : List Char) : YVal :=
  if key = "name".data || key = "tube".data || key = "version".data then
    .str (String.mk val)
  else if pyAnchored intCore val then
    .int (pyInt val)
  else if pyAnchored floatCore val then
    .float (pyFloatQ val)
  else
    .str (String.mk val)

/-- Assignment d[key] = v on the association list modelling the Python
dict: replace in place when present, else append. -/
def upsert (d : List (String × YVal)) (k : String) (v : YVal) : List (String × YVal) :=
  if d.any (fun p => p.1 = k) then
    d.map (fun p => if p.1 = k then (k, v) else p)
  else
    d ++ [(k, v)]

/-- parse_yaml_dict from the source: iterate the multiline dict pattern
over the whole body and assign each typed capture into the dict. -/
def parse_yaml_dict (s : String) : List (String × YVal) :=
  (findEntries s.data).foldl (fun d kv => upsert d (String.mk kv.1) (typedVal kv.1 kv.2)) []

/-! ## The list pattern of parse_yaml_list -/

/-- Attempt the list-item pattern (dash, space, capture up to the line
end) at an anchor position.  Returns the capture and the suffix after the
match end. -/
def matchListItem (s : List Char) : Option (List Char × List Char) :=
  match s with
  | c1 :: c2 :: rest =>
    if c1 = '-' ∧ c2 = ' ' then
      let cap := rest.takeWhile (fun c => !(c = '\n'))
      some (cap, rest.drop cap.length)
    else none
  | _ => none

/-- Fuel-indexed scan of all matches of the list pattern, visiting anchor
positions left to right exactly as re.findall does. -/
def findListFuel : Nat → List Char → List (List Char)
  | 0, _ => []
  | _ + 1, [] => []
  | n + 1, s =>
    match matchListItem s with
    | some (cap, rest) => cap :: findListFuel n (nextLinePos rest)
    | none => findListFuel n (nextLinePos s)

/-- parse_yaml_list from the source: all captures of the pattern
caret dash space (anychar*) dollar with re.M, in document order. -/
def parse_yaml_list (s : String) : List String :=
  (findListFuel (s.data.length + 1) s.data).map String.mk

/-! ## Line-based reference formulations (written from the wording of the
specification, for comparison with the embedded source behaviour) -/

/-- Fuel-indexed splitting of the input into its newline-separated lines. -/
def linesOfFuel : Nat → List Char → List (List Char)
  | 0, _ => []
  | _ + 1, [] => []
  | n + 1, s => s.takeWhile (fun c => !(c = '\n')) :: linesOfFuel n (nextLinePos s)

/-- Newline-separated lines of the input. -/
def linesOf (s : List Char) : List (List Char) :=
  linesOfFuel (s.length + 1) s

/-- Modelled from the spec: a single line matches the dict form when it is
whitespace, key, whitespace, colon, whitespace and a single token running
to the line end. -/
def matchEntryLine (l : List Char) : Option (List Char × List Char) :=
  let s1 := l.dropWhile isSpace
  let key := s1.takeWhile isKeyChar
  if key.isEmpty then none
  else
    match (s1.drop key.length).dropWhile isSpace with
    | [] => none
    | c0 :: s3 =>
      if c0 = ':' then
        let s4 := s3.dropWhile isSpace
        let v := s4.takeWhile (fun c => !(isSpace c))
        if (s4.drop v.length).isEmpty then some (key, v) else none
      else none

/-- Modelled from the spec: the line-by-line reading of the dict parser,
under which every key, colon and value lie on one line and non-matching
lines are skipped. -/
def parse_yaml_dict_linewise (s : String) : List (String × YVal) :=
  ((linesOf s.data).filterMap matchEntryLine).foldl
    (fun d kv => upsert d (String.mk kv.1) (typedVal kv.1 kv.2)) []

/-- Modelled from the spec: a line contributes a list element exactly when
it begins with dash space, the element being the remainder of the line. -/
def listItemOfLine (l : List Char) : Option (List Char) :=
  match l with
  | c1 :: c2 :: rest => if c1 = '-' ∧ c2 = ' ' then some rest else none
  | _ => none

/-! ## Declarative grammars for the integer and float token forms

These state the productions of the two value grammars directly, as the
specification words them, to be proved equivalent to the regex bodies
embedded above. -/

/-- A nonzero ASCII digit. -/
def NonzeroDigit (c : Char) : Prop := '1' ≤ c ∧ c ≤ '9'

/-- The integer grammar: the single digit 0, or an optional minus sign
followed by a nonzero digit and further digits. -/
def IntGrammar (v : List Char) : Prop :=
  v = ['0'] ∨
    ∃ d ds, (v = d :: ds ∨ v = '-' :: d :: ds) ∧ NonzeroDigit d ∧ ∀ c ∈ ds, isDigit c = true

/-- The float grammar: optional minus sign, a nonempty digit run, an
optional fraction (dot and a nonempty digit run) and an optional exponent
(letter e, optional sign, then a nonzero digit and further digits). -/
def FloatGrammar (v : List Char) : Prop :=
  ∃ sgn ip fr ex,
    v = sgn ++ ip ++ fr ++ ex ∧
    (sgn = [] ∨ sgn = ['-']) ∧
    ip ≠ [] ∧ (∀ c ∈ ip, isDigit c = true) ∧
    (fr = [] ∨ ∃ fd, fr = '.' :: fd ∧ fd ≠ [] ∧ ∀ c ∈ fd, isDigit c = true) ∧
    (ex = [] ∨ ∃ es d ds, ex = 'e' :: (es ++ d :: ds) ∧
      (es = [] ∨ es = ['+'] ∨ es = ['-']) ∧ NonzeroDigit d ∧ ∀ c ∈ ds, isDigit c = true)

/-! ## Connection wait-time policy (Connection._current_wait_time)

The reconnect strategy is None, the string exp_backoff or the string
constant; the timeout and bound are rationals (Python floats).  A Python
connection_timeout of None or 0 is falsy; both are modelled by the
rational 0.  The random draw uniform(1.0, 2.0) is passed in as the
parameter r. -/

/-- The two recognised non-None reconnect strategies. -/
inductive Strategy where
  | exp_backoff : Strategy
  | constant : Strategy
  deriving DecidableEq, Repr

/-- The connection attributes read by _current_wait_time. -/
structure ConnCfg where
  connection_timeout : ℚ
  reconnect_strategy : Option Strategy
  unsuccessful_connects : Nat
  upper_backoff_bound : ℚ
  deriving DecidableEq, Repr

/-- Connection._current_wait_time.  The local variable connection_timeout
is the attribute defaulted to DEFAULT_TIMEOUT when falsy; the branch for
strategy None returns the raw attribute instead. -/
def current_wait_time (c : ConnCfg) (r : ℚ) : ℚ :=
  let connection_timeout := if c.connection_timeout = 0 then DEFAULT_TIMEOUT else c.connection_timeout
  match c.reconnect_strategy with
  | none => c.connection_timeout
  | some .exp_backoff =>
    min (r * connection_timeout * (2 : ℚ) ^ c.unsuccessful_connects) c.upper_backoff_bound
  | some .constant => connection_timeout

/-! ## Tube caching (Connection.use)

The connection state relevant to use is the cached current tube name; the
second component of the result is the list of wire commands sent. -/

/-- The cached current tube of a connection. -/
structure UseSt where
  tube : String
  deriving DecidableEq, Repr

/-- Immediately after Connection.__init__ the cached tube is default. -/
def initTube : UseSt := ⟨"default"⟩

/-- The wire command sent by Connection.use. -/
def use_cmd (name : String) : String := "use " ++ name ++ "\r\n"

/-- Connection.use: contact the server only when the requested tube
differs from the cached one, setting the cache first. -/
def use (c : UseSt) (name : String) : UseSt × List String :=
  if c.tube ≠ name then (⟨name⟩, [use_cmd name]) else (c, [])

/-! ## Socket lifecycle (Connection.connect / Connection.close)

The socket attribute is none exactly when the connection is closed.  IO
outcomes that Python surfaces as socket.error are passed in as booleans;
the second result component lists the commands actually sent. -/

/-- The connection attributes touched by connect and close. -/
structure ConnSock where
  socket : Option Nat
  unsuccessful_connects : Nat
  deriving DecidableEq, Repr

/-- Connection.close: no-op when already closed; otherwise best-effort
send quit (sendOk false models a socket.error, which skips the stream
close), swallow any error, and in all cases clear the socket. -/
def conn_close (c : ConnSock) (sendOk _closeOk : Bool) : ConnSock × List String :=
  match c.socket with
  | none => (c, [])
  | some _ =>
    ({ c with socket := none }, if sendOk then ["quit\r\n"] else [])

/-- One pass of the connect retry loop over a list of attempt outcomes
(true = the TCP connect succeeded).  The real loop never gives up; the
list bounds the modelled prefix of attempts.  The second result counts
attempts made. -/
def connectAttempts : ConnSock → List Bool → ConnSock × Nat
  | c, [] => (c, 0)
  | _, true :: _ => ({ socket := some 0, unsuccessful_connects := 0 }, 1)
  | c, false :: rest =>
    let p := connectAttempts { socket := none, unsuccessful_connects := c.unsuccessful_connects + 1 } rest
    (p.1, p.2 + 1)

/-- Connection.connect: no-op unless closed; from closed, run the retry
loop. -/
def conn_connect (c : ConnSock) (outcomes : List Bool) : ConnSock × Nat :=
  if c.socket.isSome then (c, 0) else connectAttempts c outcomes

/-! ## Constructor validation (Connection.__init__) and put

The reconnect strategy argument arrives as an arbitrary Option String; the
job body of put arrives as an arbitrary Python value.  Both functions
return an error without any wire output when validation fails, mirroring
that the raise happens before any network IO. -/

/-- The strategy names accepted by the constructor. -/
def valid_strategies : List (Option String) := [none, some "exp_backoff", some "constant"]

/-- The observable outcome of Connection.__init__: the initial attribute
values plus whether connect (the only network IO of the constructor) was
invoked. -/
structure InitResult where
  tube : String
  connection_timeout : ℚ
  reconnect_strategy : Option String
  unsuccessful_connects : Nat
  upper_backoff_bound : ℚ
  connect_called : Bool
  deriving DecidableEq, Repr

/-- Connection.__init__: validate the strategy name, then connect eagerly
exactly when no strategy was given.  An unrecognised name raises ValueError
before any connection attempt. -/
def conn_init (timeout : ℚ) (strategy : Option String) (bound : ℚ) :
    Except String InitResult :=
  if strategy ∈ valid_strategies then
    .ok { tube := "default", connection_timeout := timeout, reconnect_strategy := strategy,
          unsuccessful_connects := 0, upper_backoff_bound := bound,
          connect_called := strategy.isNone }
  else
    .error "Reconnect strategy must be None, exp_backoff, or constant"

/-- A Python value offered as a job body: only a byte string (py2 str)
passes the isinstance assert of put. -/
inductive PyBody where
  | str : String → PyBody
  | unicode : String → PyBody
  | intObj : Int → PyBody
  | noneObj : PyBody
  deriving DecidableEq, Repr

/-- Whether the body is a py2 str instance. -/
def isStr : PyBody → Bool
  | .str _ => true
  | _ => false

/-- Connection.put: assert the body is a byte string before anything
else (so before the optional use and before any bytes are sent), then
optionally switch tube and send the framed put command.  The length field
is the byte length of the body. -/
def put (c : UseSt) (body : PyBody) (priority delay ttr : Nat) (tube : Option String) :
    Except String (UseSt × List String) :=
  match body with
  | .str s =>
    let p := match tube with
      | some t => if t ≠ "" then use c t else (c, [])
      | none => (c, [])
    .ok (p.1, p.2 ++
      ["put " ++ toString priority ++ " " ++ toString delay ++ " " ++ toString ttr ++ " " ++
        toString s.length ++ "\r\n" ++ s ++ "\r\n"])
  | _ => .error "Job body must be a str instance"

/-! ## The generic interaction cycle (Connection._interact) and the
operations built on it

One completed exchange is modelled by its response status line (status
token plus argument tokens) and, for body-bearing responses, the body.
Stream failures restart the cycle inside the source and never reach these
status dispatches. -/

/-- Outcome of one completed _interact exchange: the results on an
expected-ok status, CommandFailed on an expected-err status, and
UnexpectedResponse otherwise; the failure constructors carry the first
token of the command, the status and the result tokens. -/
inductive InteractResult (α : Type) where
  | ok : α → InteractResult α
  | commandFailed : String → String → List String → InteractResult α
  | unexpectedResponse : String → String → List String → InteractResult α
  deriving DecidableEq, Repr

/-- First whitespace-separated token of a command, as command.split()[0]. -/
def firstToken (s : String) : String :=
  String.mk (s.data.takeWhile (fun c => !(isSpace c)))

/-- Connection._interact, given the decoded status and results of one
exchange. -/
def interact (command : String) (expected_ok expected_err : List String)
    (status : String) (results : List String) : InteractResult (List String) :=
  if status ∈ expected_ok then .ok results
  else if status ∈ expected_err then .commandFailed (firstToken command) status results
  else .unexpectedResponse (firstToken command) status results

/-- Connection._interact_job: on success the job carries the first result
token (the job id, whose int conversion is orthogonal to the claims), the
body and the reserved flag. -/
def interact_job (command : String) (expected_ok expected_err : List String)
    (reserved : Bool) (status : String) (results : List String) (body : String) :
    InteractResult (String × String × Bool) :=
  match interact command expected_ok expected_err status results with
  | .ok rs => .ok (rs.headD "", body, reserved)
  | .commandFailed c st rs => .commandFailed c st rs
  | .unexpectedResponse c st rs => .unexpectedResponse c st rs

/-- Result of Connection.reserve as seen by the caller. -/
inductive ReserveResult where
  | job : String → String → Bool → ReserveResult
  | noJob : ReserveResult
  | deadlineSoon : List String → ReserveResult
  | unexpectedResponse : String → String → List String → ReserveResult
  deriving DecidableEq, Repr

/-- Connection.reserve: build the command from the optional timeout, run
the job interaction expecting RESERVED with known failures DEADLINE_SOON
and TIMED_OUT, then absorb TIMED_OUT into no-job and resurface
DEADLINE_SOON as the distinct DeadlineSoon condition (the final noJob arm
mirrors the implicit None fall-through of the Python except clause). -/
def reserve (timeout : Option Int) (status : String) (results : List String)
    (body : String) : ReserveResult :=
  let command := match timeout with
    | some t => "reserve-with-timeout " ++ toString t ++ "\r\n"
    | none => "reserve\r\n"
  match interact_job command ["RESERVED"] ["DEADLINE_SOON", "TIMED_OUT"] true status results body with
  | .ok (jid, b, r) => .job jid b r
  | .commandFailed _ st rs =>
    if st = "TIMED_OUT" then .noJob
    else if st = "DEADLINE_SOON" then .deadlineSoon rs
    else .noJob
  | .unexpectedResponse c st rs => .unexpectedResponse c st rs

/-- Result of the peek operations as seen by the caller. -/
inductive PeekResult where
  | job : String → String → Bool → PeekResult
  | noJob : PeekResult
  | unexpectedResponse : String → String → List String → PeekResult
  deriving DecidableEq, Repr

/-- Connection._interact_peek: expect FOUND with known failure NOT_FOUND,
absorbing any CommandFailed into no-job; peeked jobs are not reserved. -/
def interact_peek (command : String) (status : String) (results : List String)
    (body : String) : PeekResult :=
  match interact_job command ["FOUND"] ["NOT_FOUND"] false status results body with
  | .ok (jid, b, r) => .job jid b r
  | .commandFailed _ _ _ => .noJob
  | .unexpectedResponse c st rs => .unexpectedResponse c st rs

/-- Connection.peek. -/
def peek (jid : Int) (status : String) (results : List String) (body : String) : PeekResult :=
  interact_peek ("peek " ++ toString jid ++ "\r\n") status results body

/-- Connection.peek_ready. -/
def peek_ready (status : String) (results : List String) (body : String) : PeekResult :=
  interact_peek "peek-ready\r\n" status results body

/-- Connection.peek_delayed. -/
def peek_delayed (status : String) (results : List String) (body : String) : PeekResult :=
  interact_peek "peek-delayed\r\n" status results body

/-- Connection.peek_buried. -/
def peek_buried (status : String) (results : List String) (body : String) : PeekResult :=
  interact_peek "peek-buried\r\n" status results body

/-! ## The Job handle

Job operations forward wire commands through the owning connection and
maintain the local reserved flag.  The stats round trip of _priority is
parametrised by its outcome: parse_yaml_dict always yields a dict, but the
source still guards with isinstance, so the model keeps both arms. -/

/-- The Job attributes relevant to its mutating operations. -/
structure JobSt where
  jid : Nat
  reserved : Bool
  deriving DecidableEq, Repr

/-- Outcome of the stats round trip inside Job._priority: a dict carrying
the pri field, or a non-dict value. -/
inductive StatsResult where
  | dict : Int → StatsResult
  | nonDict : StatsResult
  deriving DecidableEq, Repr

/-- Job._priority: the pri entry of the stats dict, else the default
priority. -/
def job_priority_of (st : StatsResult) : Int :=
  match st with
  | .dict p => p
  | .nonDict => (DEFAULT_PRIORITY : Int)

/-- Wire command of Connection.stats_job. -/
def stats_job_cmd (jid : Nat) : String := "stats-job " ++ toString jid ++ "\r\n"

/-- Wire command of Connection.release. -/
def release_cmd (jid : Nat) (pri : Int) (delay : Nat) : String :=
  "release " ++ toString jid ++ " " ++ toString pri ++ " " ++ toString delay ++ "\r\n"

/-- Wire command of Connection.bury. -/
def bury_cmd (jid : Nat) (pri : Int) : String :=
  "bury " ++ toString jid ++ " " ++ toString pri ++ "\r\n"

/-- Wire command of Connection.touch. -/
def touch_cmd (jid : Nat) : String := "touch " ++ toString jid ++ "\r\n"

/-- Wire command of Connection.delete. -/
def delete_cmd (jid : Nat) : String := "delete " ++ toString jid ++ "\r\n"

/-- Evaluation of the Python expression priority or self._priority():
when the passed priority is None or 0 (falsy) the stats round trip runs
and its fetched value is used; the first component is the priority sent,
the second the commands of the optional round trip. -/
def effectivePriority (jid : Nat) (priority : Option Int) (st : StatsResult) :
    Int × List String :=
  match priority with
  | some v => if v = 0 then (job_priority_of st, [stats_job_cmd jid]) else (v, [])
  | none => (job_priority_of st, [stats_job_cmd jid])

/-- Job.release: no-op unless reserved; otherwise resolve the priority,
forward release and clear the reserved flag. -/
def job_release (j : JobSt) (priority : Option Int) (delay : Nat) (st : StatsResult) :
    JobSt × List String :=
  if j.reserved then
    let p := effectivePriority j.jid priority st
    ({ j with reserved := false }, p.2 ++ [release_cmd j.jid p.1 delay])
  else (j, [])

/-- Job.bury: no-op unless reserved; otherwise resolve the priority,
forward bury and clear the reserved flag. -/
def job_bury (j : JobSt) (priority : Option Int) (st : StatsResult) :
    JobSt × List String :=
  if j.reserved then
    let p := effectivePriority j.jid priority st
    ({ j with reserved := false }, p.2 ++ [bury_cmd j.jid p.1])
  else (j, [])

/-- Job.touch: no-op unless reserved; forwards touch without clearing the
reserved flag. -/
def job_touch (j : JobSt) : JobSt × List String :=
  if j.reserved then (j, [touch_cmd j.jid]) else (j, [])

/-- Job.delete: always forwards delete and clears the reserved flag. -/
def job_delete (j : JobSt) : JobSt × List String :=
  ({ j with reserved := false }, [delete_cmd j.jid])

/-! ## Helper lemmas -/

/-- Dropping as many elements as the takeWhile prefix is dropWhile. -/
theorem drop_length_takeWhile (p : Char → Bool) (l : List Char) :
    l.drop (l.takeWhile p).length = l.dropWhile p := by
  induction l with
  | nil => rfl
  | cons c t ih =>
    by_cases h : p c
    · simp [List.takeWhile_cons, List.dropWhile_cons, h, ih]
    · simp [List.takeWhile_cons, List.dropWhile_cons, h]

/-- Applying dropWhile twice with the same predicate changes nothing. -/
theorem dropWhile_idem (p : Char → Bool) (l : List Char) :
    (l.dropWhile p).dropWhile p = l.dropWhile p := by
  induction l with
  | nil => rfl
  | cons c t ih =>
    by_cases h : p c
    · simp [List.dropWhile_cons, h, ih]
    · simp [List.dropWhile_cons, h]

/-- A line whose first two characters are not dash and space yields no
list element. -/
theorem listItemOfLine_takeWhile_none (c1 c2 : Char) (t2 : List Char)
    (h : ¬ (c1 = '-' ∧ c2 = ' ')) :
    listItemOfLine ((c1 :: c2 :: t2).takeWhile (fun c => !(c = '\n'))) = none := by
  by_cases h1 : c1 = '\n'
  · simp [List.takeWhile_cons, h1, listItemOfLine]
  · by_cases h2 : c2 = '\n'
    · simp [List.takeWhile_cons, h1, h2, listItemOfLine]
    · simp [List.takeWhile_cons, h1, h2, listItemOfLine, h]

/-- The left-to-right scan of the list pattern agrees, at every fuel, with
filtering the newline-separated lines through the per-line match. -/
theorem findList_eq_linewise (n : Nat) :
    ∀ s : List Char, findListFuel n s = (linesOfFuel n s).filterMap listItemOfLine := by
  induction n with
  | zero => intro s; rfl
  | succ n ih =>
    intro s
    rcases s with _ | ⟨c1, t1⟩
    · rfl
    · rcases t1 with _ | ⟨c2, t2⟩
      · by_cases h1 : c1 = '\n' <;>
          simp [findListFuel, linesOfFuel, matchListItem, listItemOfLine,
            List.takeWhile_cons, nextLinePos, List.dropWhile_cons, h1, ih]
      · by_cases h1 : c1 = '-' ∧ c2 = ' '
        · obtain ⟨rfl, rfl⟩ := h1
          have heq1 : findListFuel (n + 1) ('-' :: ' ' :: t2) =
              (t2.takeWhile (fun c => !(c = '\n'))) ::
                findListFuel n
                  (nextLinePos (t2.drop (t2.takeWhile (fun c => !(c = '\n'))).length)) := rfl
          have heq2 : linesOfFuel (n + 1) ('-' :: ' ' :: t2) =
              ('-' :: ' ' :: t2.takeWhile (fun c => !(c = '\n'))) ::
                linesOfFuel n (nextLinePos ('-' :: ' ' :: t2)) := rfl
          have heq3 : listItemOfLine ('-' :: ' ' :: t2.takeWhile (fun c => !(c = '\n'))) =
              some (t2.takeWhile (fun c => !(c = '\n'))) := rfl
          rw [heq1, heq2, List.filterMap_cons, heq3]
          refine congrArg _ ?_
          rw [drop_length_takeWhile]
          have hpos : nextLinePos ('-' :: ' ' :: t2) =
              nextLinePos (t2.dropWhile (fun c => !(c = '\n'))) := by
            simp [nextLinePos, List.dropWhile_cons, dropWhile_idem]
          rw [ih, hpos]
        · have hnone : matchListItem (c1 :: c2 :: t2) = none := by
            simp [matchListItem, h1]
          simp only [findListFuel, linesOfFuel, hnone, List.filterMap_cons,
            listItemOfLine_takeWhile_none c1 c2 t2 h1]
          exact ih _

/-! ## Claim theorems -/

/-- C1: for every reserve call, with or without timeout, a TIMED_OUT
response yields the no-job result rather than an error, a DEADLINE_SOON
response yields the distinct DeadlineSoon condition carrying the result
tokens rather than the generic CommandFailed, and every peek variant
yields the no-job result on a NOT_FOUND response. -/
theorem C1_reserve_peek_error_absorption :
    ∀ (timeout : Option Int) (results : List String) (body : String),
      reserve timeout "TIMED_OUT" results body = .noJob ∧
      reserve timeout "DEADLINE_SOON" results body = .deadlineSoon results ∧
      (∀ jid : Int, peek jid "NOT_FOUND" results body = .noJob) ∧
      peek_ready "NOT_FOUND" results body = .noJob ∧
      peek_delayed "NOT_FOUND" results body = .noJob ∧
      peek_buried "NOT_FOUND" results body = .noJob := by
  intro timeout results body
  refine ⟨?_, ?_, fun jid => ?_, ?_, ?_, ?_⟩ <;>
    simp [reserve, peek, peek_ready, peek_delayed, peek_buried, interact_peek,
      interact_job, interact]

/-- C2: release, bury and touch are local no-ops on an unreserved job;
release and bury clear the reserved flag after forwarding while touch
keeps it set; delete always forwards and clears the flag; consequently a
second release or bury on the same handle performs no server
interaction. -/
theorem C2_job_reserved_flag_discipline :
    ∀ (jid : Nat) (p p2 : Option Int) (d d2 : Nat) (st st2 : StatsResult),
      job_release ⟨jid, false⟩ p d st = (⟨jid, false⟩, []) ∧
      job_bury ⟨jid, false⟩ p st = (⟨jid, false⟩, []) ∧
      job_touch ⟨jid, false⟩ = (⟨jid, false⟩, []) ∧
      (job_release ⟨jid, true⟩ p d st).1.reserved = false ∧
      (job_bury ⟨jid, true⟩ p st).1.reserved = false ∧
      job_touch ⟨jid, true⟩ = (⟨jid, true⟩, [touch_cmd jid]) ∧
      (∀ r : Bool, job_delete ⟨jid, r⟩ = (⟨jid, false⟩, [delete_cmd jid])) ∧
      job_release (job_release ⟨jid, true⟩ p d st).1 p2 d2 st2 =
        ((job_release ⟨jid, true⟩ p d st).1, []) ∧
      job_bury (job_bury ⟨jid, true⟩ p st).1 p2 st2 =
        ((job_bury ⟨jid, true⟩ p st).1, []) := by
  intro jid p p2 d d2 st st2
  refine ⟨?_, ?_, ?_, ?_, ?_, ?_, fun r => ?_, ?_, ?_⟩ <;>
    simp [job_release, job_bury, job_touch, job_delete]

/-- C3 counterexample: with the exponential-backoff strategy and a
configured connection timeout of 0 (falsy), zero failures, bound 30 and
random draw 1, the code waits 1/20 (the default timeout is substituted),
while the claimed formula over the configured connection_timeout gives
min (1 * 0 * 2 ^ 0) 30 = 0. -/
theorem C3_counterexample_falsy_timeout :
    current_wait_time ⟨0, some .exp_backoff, 0, 30⟩ 1 = 1 / 20 ∧
    min ((1 : ℚ) * 0 * 2 ^ (0 : Nat)) 30 = 0 ∧
    ¬ current_wait_time ⟨0, some .exp_backoff, 0, 30⟩ 1 =
        min ((1 : ℚ) * 0 * 2 ^ (0 : Nat)) 30 := by
  refine ⟨?_, ?_, ?_⟩ <;> norm_num [current_wait_time, DEFAULT_TIMEOUT]

/-- C3 amended: under the exponential-backoff strategy the wait time
equals the random draw times the connection timeout, with a falsy (0 or
None) timeout first replaced by the default 1/20, times 2 to the number
of consecutive unsuccessful connects, clamped to the configured upper
bound; hence for every failure count and every draw it never exceeds the
configured upper bound. -/
theorem C3_amended_backoff_formula_and_bound :
    ∀ (ct bound : ℚ) (n : Nat) (r : ℚ),
      current_wait_time ⟨ct, some .exp_backoff, n, bound⟩ r =
        min (r * (if ct = 0 then 1 / 20 else ct) * 2 ^ n) bound ∧
      current_wait_time ⟨ct, some .exp_backoff, n, bound⟩ r ≤ bound := by
  intro ct bound n r
  constructor
  · simp [current_wait_time, DEFAULT_TIMEOUT]
  · simp only [current_wait_time]
    exact min_le_right _ _

/-- C4 counterexample: with a configured connection timeout of 0 (falsy)
the unset strategy waits the raw configured value 0 while the constant
strategy waits the substituted default 1/20, so the two strategies do not
always agree and constant does not always equal the configured timeout. -/
theorem C4_counterexample_falsy_timeout :
    current_wait_time ⟨0, none, 0, 30⟩ 1 = 0 ∧
    current_wait_time ⟨0, some .constant, 0, 30⟩ 1 = 1 / 20 ∧
    ¬ current_wait_time ⟨0, some .constant, 0, 30⟩ 1 =
        current_wait_time ⟨0, none, 0, 30⟩ 1 := by
  refine ⟨?_, ?_, ?_⟩ <;> norm_num [current_wait_time, DEFAULT_TIMEOUT]

/-- C4 amended: the unset strategy always waits exactly the configured
connection timeout; the constant strategy waits the configured timeout
with a falsy (0 or None) value replaced by the default 1/20; therefore
the two strategies agree, both equal to the configured timeout, whenever
the configured timeout is truthy (nonzero). -/
theorem C4_amended_constant_vs_none :
    ∀ (ct bound : ℚ) (n : Nat) (r : ℚ),
      current_wait_time ⟨ct, none, n, bound⟩ r = ct ∧
      current_wait_time ⟨ct, some .constant, n, bound⟩ r =
        (if ct = 0 then 1 / 20 else ct) ∧
      (ct ≠ 0 →
        current_wait_time ⟨ct, some .constant, n, bound⟩ r =
          current_wait_time ⟨ct, none, n, bound⟩ r) := by
  intro ct bound n r
  refine ⟨rfl, by simp [current_wait_time, DEFAULT_TIMEOUT], fun h => ?_⟩
  simp [current_wait_time, DEFAULT_TIMEOUT, h]

/-- C4 witness: at the truthy configured timeout 1 the constant and unset
strategies compute the same wait time. -/
theorem C4_amended_constant_vs_none_witness :
    current_wait_time ⟨1, some .constant, 5, 30⟩ 7 =
      current_wait_time ⟨1, none, 5, 30⟩ 7 :=
  (C4_amended_constant_vs_none 1 30 5 7).2.2 (by norm_num)

/-- C5 counterexample: immediately after construction the cached tube is
default, so calling use with the name default twice in a row performs
zero wire interactions in total, not exactly one. -/
theorem C5_counterexample_use_default_twice :
    (use initTube "default").2 ++ (use (use initTube "default").1 "default").2 = [] ∧
    ¬ ((use initTube "default").2 ++
        (use (use initTube "default").1 "default").2).length = 1 := by
  constructor <;> simp [use, initTube]

/-- C5 amended: use performs zero wire interactions when the requested
name equals the locally cached tube, which is default immediately after
construction; when the name differs, the first of two successive calls
with that name performs exactly one wire interaction and the second
performs none. -/
theorem C5_amended_use_tube_caching :
    ∀ (c : UseSt) (name : String),
      (c.tube = name → use c name = (c, [])) ∧
      (c.tube ≠ name →
        (use c name).2 = [use_cmd name] ∧ (use (use c name).1 name).2 = []) ∧
      initTube.tube = "default" := by
  intro c name
  refine ⟨fun h => ?_, fun h => ⟨?_, ?_⟩, rfl⟩ <;> simp [use, h, initTube]

/-- C5 witness: from the freshly constructed state, two successive use
calls with the name x perform exactly one wire interaction, all in the
first call. -/
theorem C5_amended_use_tube_caching_witness :
    (use initTube "x").2 = [use_cmd "x"] ∧ (use (use initTube "x").1 "x").2 = [] :=
  (C5_amended_use_tube_caching initTube "x").2.1 (by decide)

/-- C7: for every input string, the list parser returns exactly the
lines beginning with dash space, each contributing the remainder of that
line as one element, in document order; both parsers are total functions
and on malformed input simply omit the non-matching lines, as the
concrete malformed examples show; the example input of two items parses
to the two remainders. -/
theorem C7_list_parser_lines_and_totality :
    (∀ s : String, parse_yaml_list s =
      ((linesOf s.data).filterMap listItemOfLine).map String.mk) ∧
    parse_yaml_list "- a\n- b\n" = ["a", "b"] ∧
    parse_yaml_list "junk\n-x\n- \n" = [""] ∧
    parse_yaml_dict "no colon here\n???\n" = [] := by
  refine ⟨fun s => ?_, by decide, by decide, by decide⟩
  unfold parse_yaml_list linesOf
  rw [findList_eq_linewise]

/-- C8: close is a no-op when already closed; after any close the socket
is absent, and a second close is an error-free no-op leaving the
connection closed; close reaches the closed state even when sending the
termination command or closing the stream fails; connect is a no-op when
the connection is already open. -/
theorem C8_close_connect_idempotent :
    ∀ (c : ConnSock) (s1 k1 s2 k2 : Bool) (outs : List Bool),
      (c.socket = none → conn_close c s1 k1 = (c, [])) ∧
      (conn_close c s1 k1).1.socket = none ∧
      conn_close (conn_close c s1 k1).1 s2 k2 = ((conn_close c s1 k1).1, []) ∧
      (c.socket.isSome = true → conn_connect c outs = (c, 0)) := by
  intro c s1 k1 s2 k2 outs
  refine ⟨fun h => ?_, ?_, ?_, fun h => ?_⟩
  · simp [conn_close, h]
  · cases hs : c.socket <;> simp [conn_close, hs]
  · cases hs : c.socket <;> simp [conn_close, hs]
  · simp [conn_connect, h]

/-- C8 witness: a closed connection is unchanged by close, and an open
connection is unchanged by connect even when a failing attempt outcome is
queued. -/
theorem C8_close_connect_idempotent_witness :
    conn_close ⟨none, 0⟩ true true = (⟨none, 0⟩, []) ∧
    conn_connect ⟨some 5, 2⟩ [false] = (⟨some 5, 2⟩, 0) :=
  ⟨(C8_close_connect_idempotent ⟨none, 0⟩ true true true true []).1 rfl,
   (C8_close_connect_idempotent ⟨some 5, 2⟩ true true true true [false]).2.2.2 rfl⟩

/-- C9: constructing a connection with an unrecognised reconnect-strategy
name yields the configuration error with no connection attempt, and put
with a job body that is not a byte string yields the assertion error with
no bytes sent; both errors carry no wire output at all. -/
theorem C9_config_errors_raised_before_io :
    ∀ (t bound : ℚ) (strat : Option String) (c : UseSt) (body : PyBody)
      (p d ttr : Nat) (tube : Option String),
      (strat ∉ valid_strategies →
        conn_init t strat bound =
          .error "Reconnect strategy must be None, exp_backoff, or constant") ∧
      (isStr body = false →
        put c body p d ttr tube = .error "Job body must be a str instance") := by
  intro t bound strat c body p d ttr tube
  refine ⟨fun h => ?_, fun h => ?_⟩
  · simp [conn_init, h]
  · cases body <;> simp_all [put, isStr]

/-- C9 witness: the unrecognised strategy name bogus and the non-string
body None are both rejected with an error. -/
theorem C9_config_errors_raised_before_io_witness :
    conn_init 1 (some "bogus") 30 =
      .error "Reconnect strategy must be None, exp_backoff, or constant" ∧
    put initTube .noneObj 0 0 120 none = .error "Job body must be a str instance" :=
  ⟨(C9_config_errors_raised_before_io 1 30 (some "bogus") initTube .noneObj 0 0 120 none).1
     (by decide),
   (C9_config_errors_raised_before_io 1 30 (some "bogus") initTube .noneObj 0 0 120 none).2
     rfl⟩

/-- C10: on a reserved job, release or bury with an explicitly passed
priority of zero behaves exactly as with the priority omitted: the
stats-job round trip runs and its fetched value, not zero, is sent in the
release or bury command, the fetched value being the pri entry of the
stats dict or the default 2 ^ 31 when stats is not a dict. -/
theorem C10_zero_priority_fetches_current :
    ∀ (jid d : Nat) (st : StatsResult),
      job_release ⟨jid, true⟩ (some 0) d st = job_release ⟨jid, true⟩ none d st ∧
      job_release ⟨jid, true⟩ (some 0) d st =
        (⟨jid, false⟩, [stats_job_cmd jid, release_cmd jid (job_priority_of st) d]) ∧
      job_bury ⟨jid, true⟩ (some 0) st = job_bury ⟨jid, true⟩ none st ∧
      job_bury ⟨jid, true⟩ (some 0) st =
        (⟨jid, false⟩, [stats_job_cmd jid, bury_cmd jid (job_priority_of st)]) ∧
      job_priority_of .nonDict = (2 : Int) ^ 31 := by
  intro jid d st
  refine ⟨?_, ?_, ?_, ?_, ?_⟩ <;>
    simp [job_release, job_bury, effectivePriority, job_priority_of, DEFAULT_PRIORITY]




/-- Any value captured by the dict pattern is free of whitespace
characters: it is either a maximal non-whitespace run or empty. -/
theorem matchEntry_val_no_space {s k v rest : List Char}
    (h : matchEntry s = some ((k, v), rest)) :
    ∀ c ∈ v, isSpace c = false := by
  simp only [matchEntry] at h
  split at h
  · exact absurd h (by simp)
  · split at h
    · exact absurd h (by simp)
    · split at h
      · split at h
        · simp only [Option.some.injEq, Prod.mk.injEq] at h
          obtain ⟨⟨-, hv⟩, -⟩ := h
          intro c hc
          rw [← hv] at hc
          have := List.mem_takeWhile_imp hc
          simpa using this
        · split at h
          · simp only [Option.some.injEq, Prod.mk.injEq] at h
            obtain ⟨⟨-, hv⟩, -⟩ := h
            intro c hc
            rw [← hv] at hc
            have := List.mem_takeWhile_imp hc
            simpa using this
          · split at h
            · simp only [Option.some.injEq, Prod.mk.injEq] at h
              obtain ⟨⟨-, hv⟩, -⟩ := h
              intro c hc
              rw [← hv] at hc
              simp at hc
            · exact absurd h (by simp)
      · exact absurd h (by simp)

/-- Every value in the scanned entry list is free of whitespace. -/
theorem findEntriesFuel_val_no_space :
    ∀ (n : Nat) (s k v : List Char), (k, v) ∈ findEntriesFuel n s →
      ∀ c ∈ v, isSpace c = false := by
  intro n
  induction n with
  | zero => intro s k v h; simp [findEntriesFuel] at h
  | succ n ih =>
    intro s k v h
    rcases s with _ | ⟨c1, t1⟩
    · simp [findEntriesFuel] at h
    · rw [show findEntriesFuel (n + 1) (c1 :: t1) =
            (match matchEntry (c1 :: t1) with
             | some (kv, rest) => kv :: findEntriesFuel n (nextLinePos rest)
             | none => findEntriesFuel n (nextLinePos (c1 :: t1))) from rfl] at h
      rcases hm : matchEntry (c1 :: t1) with _ | ⟨⟨k0, v0⟩, rest⟩
      · rw [hm] at h
        exact ih _ _ _ h
      · rw [hm] at h
        rcases List.mem_cons.mp h with h1 | h1
        · obtain ⟨rfl, rfl⟩ := Prod.mk.inj h1
          exact matchEntry_val_no_space hm
        · exact ih _ _ _ h1

/-- On tokens without whitespace the optional-trailing-newline form of
the dollar anchor collapses to the bare pattern body. -/
theorem pyAnchored_eq_core (core : List Char → Bool) (v : List Char)
    (h : ∀ c ∈ v, isSpace c = false) : pyAnchored core v = core v := by
  unfold pyAnchored
  rcases hr : v.reverse with _ | ⟨c, t⟩
  · simp
  · have hc : c ∈ v := by
      have hmem : c ∈ v.reverse := by rw [hr]; exact List.mem_cons_self _ _
      exact List.mem_reverse.mp hmem
    have hs := h c hc
    have hcn : ¬ (c = '\n') := by
      intro e; subst e; simp [isSpace] at hs
    simp [hcn]

/-- Characterisation of the nonzero-digit-run matcher. -/
theorem posDigits_iff (l : List Char) :
    posDigits l = true ↔
      ∃ d ds, l = d :: ds ∧ NonzeroDigit d ∧ ∀ c ∈ ds, isDigit c = true := by
  rcases l with _ | ⟨c, cs⟩
  · simp [posDigits]
  · constructor
    · intro h
      simp only [posDigits, Bool.and_eq_true, decide_eq_true_eq, List.all_eq_true] at h
      exact ⟨c, cs, rfl, ⟨h.1.1, h.1.2⟩, h.2⟩
    · rintro ⟨d, ds, heq, hd, hds⟩
      obtain ⟨rfl, rfl⟩ := List.cons.inj heq
      simp only [posDigits, Bool.and_eq_true, decide_eq_true_eq, List.all_eq_true]
      exact ⟨⟨hd.1, hd.2⟩, hds⟩

/-- The integer regex body accepts exactly the integer grammar. -/
theorem intCore_iff (v : List Char) : intCore v = true ↔ IntGrammar v := by
  rcases v with _ | ⟨c, cs⟩
  · simp [intCore, IntGrammar]
  · by_cases hc : c = '-'
    · subst hc
      have h0 : ¬ (('-' :: cs : List Char) = ['0']) := by simp
      have hl : intCore ('-' :: cs) = posDigits cs := by simp [intCore]
      rw [hl, posDigits_iff]
      unfold IntGrammar
      constructor
      · rintro ⟨d, ds, rfl, hd, hds⟩
        exact Or.inr ⟨d, ds, Or.inr rfl, hd, hds⟩
      · rintro (h | ⟨d, ds, h1 | h1, hd, hds⟩)
        · exact absurd h h0
        · obtain ⟨rfl, rfl⟩ := List.cons.inj h1
          exact absurd hd.1 (by decide)
        · obtain ⟨-, rfl⟩ := List.cons.inj h1
          exact ⟨d, ds, rfl, hd, hds⟩
    · by_cases h0 : (c :: cs : List Char) = ['0']
      · rw [h0]; simp [intCore, IntGrammar]
      · have hl : intCore (c :: cs) = posDigits (c :: cs) := by
          simp [intCore, hc, h0]
        rw [hl, posDigits_iff]
        unfold IntGrammar
        constructor
        · rintro ⟨d, ds, heq, hd, hds⟩
          exact Or.inr ⟨d, ds, Or.inl heq, hd, hds⟩
        · rintro (h | ⟨d, ds, h1 | h1, hd, hds⟩)
          · exact absurd h h0
          · exact ⟨d, ds, h1, hd, hds⟩
          · obtain ⟨he, -⟩ := List.cons.inj h1
            exact absurd he hc

/-- The head of dropWhile, when present, fails the predicate. -/
theorem head_dropWhile_false (p : Char → Bool) (l : List Char) :
    ∀ c, (l.dropWhile p).head? = some c → p c = false := by
  induction l with
  | nil => intro c h; simp at h
  | cons a t ih =>
    intro c h
    by_cases ha : p a
    · rw [List.dropWhile_cons, if_pos ha] at h
      exact ih c h
    · rw [List.dropWhile_cons, if_neg ha] at h
      simp only [List.head?_cons, Option.some.injEq] at h
      subst h
      exact Bool.eq_false_iff.mpr ha

/-- Splitting takeWhile and dropWhile over an append whose left part all
satisfies the predicate and whose right part starts with a failure. -/
theorem takeWhile_app_of_all (p : Char → Bool) (l r : List Char)
    (hl : ∀ c ∈ l, p c = true) (hr : ∀ c, r.head? = some c → p c = false) :
    (l ++ r).takeWhile p = l ∧ (l ++ r).dropWhile p = r := by
  induction l with
  | nil =>
    rcases r with _ | ⟨c, t⟩
    · simp
    · have hc := hr c rfl
      simp [List.takeWhile_cons, List.dropWhile_cons, hc]
  | cons a t ih =>
    have ha := hl a (List.mem_cons_self _ _)
    have iht := ih (fun x hx => hl x (List.mem_cons_of_mem _ hx))
    simp [List.takeWhile_cons, List.dropWhile_cons, ha, iht.1, iht.2]

/-- The optional-exponent matcher accepts exactly the exponent grammar. -/
theorem expPart_iff (r : List Char) :
    expPart r = true ↔
      (r = [] ∨ ∃ es d ds, r = 'e' :: (es ++ d :: ds) ∧
        (es = [] ∨ es = ['+'] ∨ es = ['-']) ∧ NonzeroDigit d ∧
        ∀ c ∈ ds, isDigit c = true) := by
  rcases r with _ | ⟨c, cs⟩
  · simp [expPart]
  · by_cases hce : c = 'e'
    · subst hce
      rcases cs with _ | ⟨c2, t⟩
      · have hl : expPart ['e'] = false := rfl
        rw [hl]
        simp only [Bool.false_eq_true, false_iff]
        rintro (h | ⟨es, d, ds, heq, -, -, -⟩)
        · exact List.noConfusion h
        · obtain ⟨-, h2⟩ := List.cons.inj heq
          exact absurd h2.symm (List.append_ne_nil_of_right_ne_nil es (List.cons_ne_nil d ds))
      · by_cases h2 : c2 = '+'
        · subst h2
          have hl : expPart ('e' :: '+' :: t) = posDigits t := rfl
          rw [hl, posDigits_iff]
          constructor
          · rintro ⟨d, ds, rfl, hd, hds⟩
            exact Or.inr ⟨['+'], d, ds, rfl, Or.inr (Or.inl rfl), hd, hds⟩
          · rintro (h | ⟨es, d, ds, heq, hes, hd, hds⟩)
            · exact List.noConfusion h
            · obtain ⟨-, h3⟩ := List.cons.inj heq
              rcases hes with rfl | rfl | rfl
              · rw [List.nil_append] at h3
                obtain ⟨rfl, -⟩ := List.cons.inj h3
                exact absurd hd.1 (by decide)
              · obtain ⟨-, h4⟩ := List.cons.inj h3
                exact ⟨d, ds, h4, hd, hds⟩
              · obtain ⟨h5, -⟩ := List.cons.inj h3
                exact absurd h5 (by decide)
        · by_cases h3 : c2 = '-'
          · subst h3
            have hl : expPart ('e' :: '-' :: t) = posDigits t := rfl
            rw [hl, posDigits_iff]
            constructor
            · rintro ⟨d, ds, rfl, hd, hds⟩
              exact Or.inr ⟨['-'], d, ds, rfl, Or.inr (Or.inr rfl), hd, hds⟩
            · rintro (h | ⟨es, d, ds, heq, hes, hd, hds⟩)
              · exact List.noConfusion h
              · obtain ⟨-, h4⟩ := List.cons.inj heq
                rcases hes with rfl | rfl | rfl
                · rw [List.nil_append] at h4
                  obtain ⟨rfl, -⟩ := List.cons.inj h4
                  exact absurd hd.1 (by decide)
                · obtain ⟨h5, -⟩ := List.cons.inj h4
                  exact absurd h5 (by decide)
                · obtain ⟨-, h5⟩ := List.cons.inj h4
                  exact ⟨d, ds, h5, hd, hds⟩
          · have hl : expPart ('e' :: c2 :: t) = posDigits (c2 :: t) := by
              simp [expPart, h2, h3]
            rw [hl, posDigits_iff]
            constructor
            · rintro ⟨d, ds, heq, hd, hds⟩
              exact Or.inr ⟨[], d, ds, by rw [List.nil_append, ← heq], Or.inl rfl, hd, hds⟩
            · rintro (h | ⟨es, d, ds, heq, hes, hd, hds⟩)
              · exact List.noConfusion h
              · obtain ⟨-, h4⟩ := List.cons.inj heq
                rcases hes with rfl | rfl | rfl
                · rw [List.nil_append] at h4
                  exact ⟨d, ds, h4, hd, hds⟩
                · obtain ⟨h5, -⟩ := List.cons.inj h4
                  exact absurd h5 h2
                · obtain ⟨h5, -⟩ := List.cons.inj h4
                  exact absurd h5 h3
    · have hl : expPart (c :: cs) = false := by
        simp [expPart, hce]
      rw [hl]
      simp only [Bool.false_eq_true, false_iff]
      rintro (h | ⟨es, d, ds, heq, -, -, -⟩)
      · exact List.noConfusion h
      · obtain ⟨h2, -⟩ := List.cons.inj heq
        exact absurd h2 hce

/-- The fraction-then-exponent matcher accepts exactly the concatenations
of an optional fraction and an optional exponent. -/
theorem fracThenExp_iff (r : List Char) :
    fracThenExp r = true ↔
      ∃ fr ex, r = fr ++ ex ∧
        (fr = [] ∨ ∃ fd, fr = '.' :: fd ∧ fd ≠ [] ∧ ∀ c ∈ fd, isDigit c = true) ∧
        (ex = [] ∨ ∃ es d ds, ex = 'e' :: (es ++ d :: ds) ∧
          (es = [] ∨ es = ['+'] ∨ es = ['-']) ∧ NonzeroDigit d ∧
          ∀ c ∈ ds, isDigit c = true) := by
  rcases r with _ | ⟨c, cs⟩
  · constructor
    · intro h
      exact ⟨[], [], rfl, Or.inl rfl, Or.inl rfl⟩
    · intro h
      rfl
  · by_cases hcd : c = '.'
    · subst hcd
      have hl : fracThenExp ('.' :: cs) =
          (!(cs.takeWhile isDigit).isEmpty && expPart (cs.dropWhile isDigit)) := by
        simp [fracThenExp]
      rw [hl]
      constructor
      · intro h
        simp only [Bool.and_eq_true] at h
        obtain ⟨h1, h2⟩ := h
        have hfd_ne : cs.takeWhile isDigit ≠ [] := by
          intro e
          rw [e] at h1
          exact absurd h1 (by decide)
        have hsplit : cs = cs.takeWhile isDigit ++ cs.dropWhile isDigit :=
          (List.takeWhile_append_dropWhile _ _).symm
        refine ⟨'.' :: cs.takeWhile isDigit, cs.dropWhile isDigit, ?_,
          Or.inr ⟨cs.takeWhile isDigit, rfl, hfd_ne, ?_⟩, (expPart_iff _).mp h2⟩
        · rw [List.cons_append, ← hsplit]
        · intro x hx
          exact List.mem_takeWhile_imp hx
      · rintro ⟨fr, ex, heq, hfr, hex⟩
        rcases hfr with rfl | ⟨fd, rfl, hfd_ne, hfd⟩
        · rw [List.nil_append] at heq
          rcases hex with rfl | ⟨es, d, ds, hex2, -, -, -⟩
          · exact List.noConfusion heq
          · rw [hex2] at heq
            obtain ⟨h5, -⟩ := List.cons.inj heq
            exact absurd h5 (by decide)
        · rw [List.cons_append] at heq
          obtain ⟨-, h5⟩ := List.cons.inj heq
          subst h5
          have hhead : ∀ x, ex.head? = some x → isDigit x = false := by
            rcases hex with rfl | ⟨es, d, ds, hex2, -, -, -⟩
            · intro x hx
              simp at hx
            · rw [hex2]
              intro x hx
              simp only [List.head?_cons, Option.some.injEq] at hx
              subst hx
              decide
          have happ := takeWhile_app_of_all isDigit fd ex hfd hhead
          rw [happ.1, happ.2]
          simp only [Bool.and_eq_true]
          refine ⟨?_, (expPart_iff _).mpr hex⟩
          rcases fd with _ | ⟨a, b⟩
          · exact absurd rfl hfd_ne
          · rfl
    · have hl : fracThenExp (c :: cs) = expPart (c :: cs) := by
        simp [fracThenExp, hcd]
      rw [hl, expPart_iff]
      constructor
      · rintro (h | ⟨es, d, ds, heq, hes, hd, hds⟩)
        · exact List.noConfusion h
        · exact ⟨[], c :: cs, rfl, Or.inl rfl, Or.inr ⟨es, d, ds, heq, hes, hd, hds⟩⟩
      · rintro ⟨fr, ex, heq, hfr, hex⟩
        rcases hfr with rfl | ⟨fd, rfl, -, -⟩
        · rw [List.nil_append] at heq
          rw [← heq] at hex
          rcases hex with h | h
          · exact absurd h (List.cons_ne_nil _ _)
          · exact Or.inr h
        · rw [List.cons_append] at heq
          obtain ⟨h5, -⟩ := List.cons.inj heq
          exact absurd h5 hcd

/-- The digits-fraction-exponent body accepts exactly its grammar. -/
theorem floatBody_iff (t : List Char) :
    (!(t.takeWhile isDigit).isEmpty && fracThenExp (t.dropWhile isDigit)) = true ↔
      ∃ ip fr ex, t = ip ++ (fr ++ ex) ∧ ip ≠ [] ∧ (∀ c ∈ ip, isDigit c = true) ∧
        (fr = [] ∨ ∃ fd, fr = '.' :: fd ∧ fd ≠ [] ∧ ∀ c ∈ fd, isDigit c = true) ∧
        (ex = [] ∨ ∃ es d ds, ex = 'e' :: (es ++ d :: ds) ∧
          (es = [] ∨ es = ['+'] ∨ es = ['-']) ∧ NonzeroDigit d ∧
          ∀ c ∈ ds, isDigit c = true) := by
  constructor
  · intro h
    simp only [Bool.and_eq_true] at h
    obtain ⟨h1, h2⟩ := h
    obtain ⟨fr, ex, hsplit2, hfr, hex⟩ := (fracThenExp_iff _).mp h2
    refine ⟨t.takeWhile isDigit, fr, ex, ?_, ?_, ?_, hfr, hex⟩
    · rw [← hsplit2, List.takeWhile_append_dropWhile]
    · intro e
      rw [e] at h1
      exact absurd h1 (by decide)
    · intro x hx
      exact List.mem_takeWhile_imp hx
  · rintro ⟨ip, fr, ex, rfl, hip, hipd, hfr, hex⟩
    have hhead : ∀ x, (fr ++ ex).head? = some x → isDigit x = false := by
      rcases hfr with rfl | ⟨fd, rfl, -, -⟩
      · rw [List.nil_append]
        rcases hex with rfl | ⟨es, d, ds, rfl, -, -, -⟩
        · intro x hx
          simp at hx
        · intro x hx
          simp only [List.head?_cons, Option.some.injEq] at hx
          subst hx
          decide
      · intro x hx
        rw [List.cons_append] at hx
        simp only [List.head?_cons, Option.some.injEq] at hx
        subst hx
        decide
    have happ := takeWhile_app_of_all isDigit ip (fr ++ ex) hipd hhead
    rw [happ.1, happ.2]
    simp only [Bool.and_eq_true]
    refine ⟨?_, (fracThenExp_iff _).mpr ⟨fr, ex, rfl, hfr, hex⟩⟩
    rcases ip with _ | ⟨a, b⟩
    · exact absurd rfl hip
    · rfl

/-- The float regex body accepts exactly the float grammar. -/
theorem floatCore_iff (v : List Char) : floatCore v = true ↔ FloatGrammar v := by
  unfold FloatGrammar
  rcases v with _ | ⟨c, cs⟩
  · constructor
    · intro h
      exact absurd h (by decide)
    · rintro ⟨sgn, ip, fr, ex, heq, hsgn, hip, hipd, hfr, hex⟩
      rcases hsgn with rfl | rfl
      · rcases ip with _ | ⟨a, b⟩
        · exact absurd rfl hip
        · simp at heq
      · simp at heq
  · by_cases hc : c = '-'
    · subst hc
      have hl : floatCore ('-' :: cs) =
          (!(cs.takeWhile isDigit).isEmpty && fracThenExp (cs.dropWhile isDigit)) := rfl
      rw [hl, floatBody_iff]
      constructor
      · rintro ⟨ip, fr, ex, rfl, hip, hipd, hfr, hex⟩
        exact ⟨['-'], ip, fr, ex, by simp, Or.inr rfl, hip, hipd, hfr, hex⟩
      · rintro ⟨sgn, ip, fr, ex, heq, hsgn, hip, hipd, hfr, hex⟩
        rcases hsgn with rfl | rfl
        · rw [List.nil_append] at heq
          rcases ip with _ | ⟨a, b⟩
          · exact absurd rfl hip
          · rw [List.cons_append] at heq
            obtain ⟨h5, -⟩ := List.cons.inj heq
            have hda : isDigit a = true := hipd a (List.mem_cons_self _ _)
            rw [← h5] at hda
            exact absurd hda (by decide)
        · simp only [List.cons_append, List.nil_append] at heq
          obtain ⟨-, h5⟩ := List.cons.inj heq
          rw [List.append_assoc] at h5
          exact ⟨ip, fr, ex, h5, hip, hipd, hfr, hex⟩
    · have hl : floatCore (c :: cs) =
          (!((c :: cs).takeWhile isDigit).isEmpty &&
            fracThenExp ((c :: cs).dropWhile isDigit)) := by
        simp [floatCore, hc]
      rw [hl, floatBody_iff]
      constructor
      · rintro ⟨ip, fr, ex, heq, hip, hipd, hfr, hex⟩
        exact ⟨[], ip, fr, ex, by simpa using heq, Or.inl rfl, hip, hipd, hfr, hex⟩
      · rintro ⟨sgn, ip, fr, ex, heq, hsgn, hip, hipd, hfr, hex⟩
        rcases hsgn with rfl | rfl
        · rw [List.nil_append, List.append_assoc] at heq
          exact ⟨ip, fr, ex, heq, hip, hipd, hfr, hex⟩
        · simp only [List.cons_append, List.nil_append] at heq
          obtain ⟨h5, -⟩ := List.cons.inj heq
          exact absurd h5 hc

/-- C6 counterexample: on the input consisting of the line count colon
followed by the line 7, the whitespace after the colon absorbs the line
break, so the parser yields the integer 7 for the key count, while the
line-by-line reading of the claim yields the empty string for count and
skips the line 7; the two disagree, refuting the per-line claim. -/
theorem C6_counterexample_value_crosses_lines :
    parse_yaml_dict "count:\n7" = [("count", .int 7)] ∧
    parse_yaml_dict_linewise "count:\n7" = [("count", .str "")] ∧
    ¬ parse_yaml_dict "count:\n7" = parse_yaml_dict_linewise "count:\n7" := by
  exact ⟨by decide, by decide, by decide⟩

/-- C6 amended: whitespace around the colon of the dict pattern may span
line breaks, so a key and its value need not share a line; with matching
so understood, every captured pair is typed as the claim states: keys
named name, tube or version keep the value as a string even if numeric,
otherwise a value in the integer grammar becomes the integer it denotes,
a value in the float grammar becomes the float it denotes, and any other
value stays a string; non-participating text is skipped; in particular
the example input parses to foo as string, 3 as integer and 3/2 as
float. -/
theorem C6_amended_dict_value_typing :
    (∀ (s k v : List Char), (k, v) ∈ findEntries s →
      ((k = "name".data ∨ k = "tube".data ∨ k = "version".data) →
        typedVal k v = .str (String.mk v)) ∧
      (¬ (k = "name".data ∨ k = "tube".data ∨ k = "version".data) →
        (IntGrammar v → typedVal k v = .int (pyInt v)) ∧
        (¬ IntGrammar v → FloatGrammar v → typedVal k v = .float (pyFloatQ v)) ∧
        (¬ IntGrammar v → ¬ FloatGrammar v → typedVal k v = .str (String.mk v)))) ∧
    parse_yaml_dict "name: foo\ncount: 3\nratio: 1.5\n" =
      [("name", .str "foo"), ("count", .int 3), ("ratio", .float (mkRat 3 2))] := by
  constructor
  · intro s k v hmem
    have hnos := findEntriesFuel_val_no_space _ _ _ _ hmem
    have hnl : pyAnchored intCore v = intCore v := pyAnchored_eq_core _ _ hnos
    have hnf : pyAnchored floatCore v = floatCore v := pyAnchored_eq_core _ _ hnos
    constructor
    · intro hn
      rcases hn with h | h | h <;> simp [typedVal, h]
    · intro hn
      push_neg at hn
      obtain ⟨hn1, hn2, hn3⟩ := hn
      refine ⟨?_, ?_, ?_⟩
      · intro hig
        have hi : intCore v = true := (intCore_iff v).mpr hig
        simp [typedVal, hn1, hn2, hn3, hnl, hi]
      · intro hni hfg
        have hi : intCore v = false :=
          Bool.eq_false_iff.mpr (fun h => hni ((intCore_iff v).mp h))
        have hf : floatCore v = true := (floatCore_iff v).mpr hfg
        simp [typedVal, hn1, hn2, hn3, hnl, hnf, hi, hf]
      · intro hni hnf2
        have hi : intCore v = false :=
          Bool.eq_false_iff.mpr (fun h => hni ((intCore_iff v).mp h))
        have hf : floatCore v = false :=
          Bool.eq_false_iff.mpr (fun h => hnf2 ((floatCore_iff v).mp h))
        simp [typedVal, hn1, hn2, hn3, hnl, hnf, hi, hf]
  · decide

/-- C6 witness: the pair captured from the input count colon space 3 is
typed as the integer 3. -/
theorem C6_amended_dict_value_typing_witness :
    typedVal "count".data "3".data = .int 3 := by
  have h := (C6_amended_dict_value_typing.1 "count: 3\n".data "count".data "3".data
    (by decide)).2 (by decide)
  have h2 := h.1 (Or.inr ⟨'3', [], Or.inl (by decide), ⟨by decide, by decide⟩, by simp⟩)
  exact h2.trans (by decide)

end Beanstalkc
